import Mathlib

/-!
Shallow embedding of the content-enrichment and feed-assembly pipeline of
`src/lib/api.ts` (a minimal social-feed client over a relational store),
together with the schema constraints of
`src/supabase/migrations/20251007193858_create_micro_twitter_schema.sql`.

Strings are modelled as Lean `String`s, row ids and timestamps as `Nat`
(ids are opaque keys, `created_at` timestamps compare like the ISO strings
the store compares), tables as lists of row records.  Each fallible store
operation returns `Except` paired with the updated database; transport
failures of individual store calls are injected through a `Faults` record
so that error-handling claims quantify over every failure pattern.
-/

/-! ## Text annotator: parseHashtags / parseMentions / parseUrls -/

/-- Word characters of the JavaScript regex class `\w` (ASCII letters,
digits, underscore), as matched by `#(\w+)` and `@(\w+)`. -/
def isWordChar (c : Char) : Bool :=
  decide ((65 ≤ c.toNat ∧ c.toNat ≤ 90) ∨ (97 ≤ c.toNat ∧ c.toNat ≤ 122) ∨
    (48 ≤ c.toNat ∧ c.toNat ≤ 57) ∨ c.toNat = 95)

/-- Whitespace characters of the JavaScript regex class `\s` (ASCII
fragment: space, tab, newline, carriage return, form feed, vertical tab). -/
def isSpaceChar (c : Char) : Bool :=
  decide (c.toNat = 32 ∨ c.toNat = 9 ∨ c.toNat = 10 ∨ c.toNat = 13 ∨
    c.toNat = 12 ∨ c.toNat = 11)

/-- Global scan of `marker(\\w+)` over the text: at each position, a marker
character followed by a maximal nonempty run of word characters yields the
captured run, and scanning resumes after the run (the semantics of
`content.match(/#(\\w+)/g)` and `content.match(/@(\\w+)/g)` followed by
`slice(1)` dropping the marker).  The fuel argument only bounds the number
of scan steps; each step consumes at least one character, so fuel equal to
the text length never runs out. -/
def scanTagMatchesFuel (marker : Char) : Nat → List Char → List (List Char)
  | 0, _ => []
  | _, [] => []
  | fuel + 1, c :: rest =>
    if c == marker then
      let run := rest.takeWhile isWordChar
      if run.isEmpty then scanTagMatchesFuel marker fuel rest
      else run :: scanTagMatchesFuel marker fuel (rest.drop run.length)
    else scanTagMatchesFuel marker fuel rest

/-- The tag scan with enough fuel for the whole text. -/
def scanTagMatches (marker : Char) (l : List Char) : List (List Char) :=
  scanTagMatchesFuel marker l.length l

/-- Attempt of the regex `https?:\\/\\/[^\\s]+` at the head of the text:
the literal scheme, then a maximal nonempty run of non-whitespace
characters.  Returns the match and the remaining text. -/
def urlMatchAt (l : List Char) : Option (List Char × List Char) :=
  if l.take 8 = "https://".data then
    let run := (l.drop 8).takeWhile (fun c => !isSpaceChar c)
    if run.isEmpty then none
    else some ("https://".data ++ run, (l.drop 8).drop run.length)
  else if l.take 7 = "http://".data then
    let run := (l.drop 7).takeWhile (fun c => !isSpaceChar c)
    if run.isEmpty then none
    else some ("http://".data ++ run, (l.drop 7).drop run.length)
  else none

/-- Global scan of `(https?:\\/\\/[^\\s]+)/g`: try a match at each position,
resume after a match, advance one character otherwise.  As above, a match
consumes at least one character, so fuel equal to the text length
suffices. -/
def scanUrlMatchesFuel : Nat → List Char → List (List Char)
  | 0, _ => []
  | _, [] => []
  | fuel + 1, c :: rest =>
    match urlMatchAt (c :: rest) with
    | some (m, rest2) => m :: scanUrlMatchesFuel fuel rest2
    | none => scanUrlMatchesFuel fuel rest

/-- The url scan with enough fuel for the whole text. -/
def scanUrlMatches (l : List Char) : List (List Char) :=
  scanUrlMatchesFuel l.length l

/-- Embedding of `String.prototype.toLowerCase` on the ASCII fragment
(matched runs contain only ASCII word characters): `Char.toLower`. -/
def lowerString (s : String) : String :=
  String.mk (s.data.map Char.toLower)

/-- Embedding of `parseHashtags` (`src/lib/api.ts:231`): every match of
`#(\w+)`, marker dropped, lowercased, in text order, duplicates kept. -/
def parseHashtags (content : String) : List String :=
  (scanTagMatches '#' content.data).map (fun run => String.mk (run.map Char.toLower))

/-- Embedding of `parseMentions` (`src/lib/api.ts:237`): every match of
`@(\w+)`, marker dropped, lowercased, in text order, duplicates kept. -/
def parseMentions (content : String) : List String :=
  (scanTagMatches '@' content.data).map (fun run => String.mk (run.map Char.toLower))

/-- Embedding of `parseUrls` (`src/lib/api.ts:243`): every match of
`(https?:\/\/[^\s]+)`, in text order, duplicates kept. -/
def parseUrls (content : String) : List String :=
  (scanUrlMatches content.data).map String.mk

/-! ## Order-preserving dedup: `Array.from(new Set(xs))` -/

/-- Accumulator pass of the JavaScript `Set` construction: keeps the first
occurrence of each element, in insertion order. -/
def dedupAppend (acc : List String) : List String → List String
  | [] => acc
  | x :: xs => if acc.contains x then dedupAppend acc xs else dedupAppend (acc ++ [x]) xs

/-- Embedding of `Array.from(new Set(xs))`: first-occurrence-order dedup,
as applied by the three enrichment writers to the parsed lists. -/
def jsSetDedup (l : List String) : List String := dedupAppend [] l

theorem mem_dedupAppend {acc xs : List String} {a : String} :
    a ∈ dedupAppend acc xs ↔ a ∈ acc ∨ a ∈ xs := by
  induction xs generalizing acc with
  | nil => simp [dedupAppend]
  | cons x xs ih =>
    unfold dedupAppend
    split
    · next hc =>
      rw [ih]
      have hx : x ∈ acc := by simpa using hc
      constructor
      · rintro (h | h)
        · exact Or.inl h
        · exact Or.inr (List.mem_cons_of_mem _ h)
      · rintro (h | h)
        · exact Or.inl h
        · rcases List.mem_cons.mp h with rfl | h
          · exact Or.inl hx
          · exact Or.inr h
    · rw [ih]
      simp only [List.mem_append, List.mem_singleton, List.mem_cons]
      tauto

theorem nodup_dedupAppend {acc : List String} (xs : List String)
    (h : acc.Nodup) : (dedupAppend acc xs).Nodup := by
  induction xs generalizing acc with
  | nil => exact h
  | cons x xs ih =>
    unfold dedupAppend
    split
    · exact ih h
    · next hc =>
      refine ih ?_
      have hx : x ∉ acc := by simpa using hc
      simp [List.nodup_append, h, hx]

theorem mem_jsSetDedup {xs : List String} {a : String} :
    a ∈ jsSetDedup xs ↔ a ∈ xs := by
  unfold jsSetDedup
  rw [mem_dedupAppend]
  simp

theorem nodup_jsSetDedup (xs : List String) : (jsSetDedup xs).Nodup :=
  nodup_dedupAppend xs List.nodup_nil

/-! ## Lowercasing facts -/

theorem char_toNat_ofNat {n : Nat} (h : n.isValidChar) : (Char.ofNat n).toNat = n := by
  unfold Char.ofNat
  rw [dif_pos h]
  rfl

/-- Uppercase ASCII letters, the characters that survive in a stored handle
but never in a lowercased extraction result. -/
def isUpperAscii (c : Char) : Bool := decide (65 ≤ c.toNat ∧ c.toNat ≤ 90)

theorem isUpperAscii_toLower (c : Char) : isUpperAscii (Char.toLower c) = false := by
  unfold Char.toLower
  dsimp only
  split
  · next hc =>
    have hv : (c.toNat + 32).isValidChar := Or.inl (by omega)
    simp only [isUpperAscii, char_toNat_ofNat hv, decide_eq_false_iff_not, not_and]
    omega
  · next hc =>
    simp only [isUpperAscii, decide_eq_false_iff_not, not_and]
    omega

theorem no_upper_of_mem_parseMentions {content s : String}
    (hs : s ∈ parseMentions content) : s.data.any isUpperAscii = false := by
  unfold parseMentions at hs
  rcases List.mem_map.mp hs with ⟨run, -, rfl⟩
  show (run.map Char.toLower).any isUpperAscii = false
  rw [List.any_map]
  rw [List.any_eq_false]
  intro c _
  simp [Function.comp, isUpperAscii_toLower]

/-! ## Data model: row records and database state -/

/-- Row of the `profiles` table (the columns the enrichment and feed code
reads: primary key and unique handle). -/
structure ProfileRow where
  id : Nat
  handle : String
deriving DecidableEq, Repr

/-- Row of the `posts` table. -/
structure Post where
  id : Nat
  user_id : Nat
  content : String
  image_url : Option String
  is_deleted : Bool
  created_at : Nat
deriving DecidableEq, Repr

/-- Row of the `follows` table. -/
structure FollowRow where
  follower_id : Nat
  following_id : Nat
deriving DecidableEq, Repr

/-- Row of the `hashtags` table (unique `tag` text). -/
structure HashtagRow where
  id : Nat
  tag : String
deriving DecidableEq, Repr

/-- Row of the `link_previews` table (unique `url`). -/
structure LinkPreviewRow where
  id : Nat
  url : String
deriving DecidableEq, Repr

/-- Database state: the tables the enrichment and feed code touches.
`post_hashtags` and `post_links` rows are (post id, target id) pairs with a
composite primary key on the pair; `mentions` rows are
(post id, mentioned-user id) pairs with no uniqueness constraint on the
pair (the table's only key is its surrogate `id`), so the list may hold
duplicates.  `nextId` models the id generator for inserted rows. -/
structure DB where
  profiles : List ProfileRow
  posts : List Post
  follows : List FollowRow
  hashtags : List HashtagRow
  post_hashtags : List (Nat × Nat)
  mentions : List (Nat × Nat)
  link_previews : List LinkPreviewRow
  post_links : List (Nat × Nat)
  nextId : Nat
deriving DecidableEq, Repr

/-- Store-reported errors: the unique-constraint violation and any other
transport/database failure. -/
inductive SbError where
  | uniqueViolation
  | transportError
deriving DecidableEq, Repr

deriving instance DecidableEq for Except

/-- Fault injection for the store calls whose failure the code handles:
each field says whether the corresponding store call reports an error. -/
structure Faults where
  postInsert : Bool
  hashtagInsert : String → Bool
  postHashtagsUpsert : Bool
  profilesSelect : Bool
  mentionsInsert : Bool
  linkPreviewInsert : String → Bool
  postLinksUpsert : Bool

/-- The all-healthy fault pattern. -/
def noFaults : Faults :=
  { postInsert := false, hashtagInsert := fun _ => false, postHashtagsUpsert := false,
    profilesSelect := false, mentionsInsert := false, linkPreviewInsert := fun _ => false,
    postLinksUpsert := false }

/-! ## Enrichment writer: getOrCreateHashtag, linkHashtags, insertMentions, linkUrls -/

/-- Embedding of `getOrCreateHashtag` (`src/lib/api.ts:249`): lowercase the
tag, look it up by `maybeSingle`, return the row when found; otherwise
insert a fresh row and `throw` the store's error when the insert fails.
The lookup and the insert are separate awaited store calls, so the table
may change between them: `dbAtLookup` is the `hashtags` table at the
lookup, `dbAtInsert` at the insert.  The unique constraint on `tag`
(`hashtags.tag UNIQUE`) makes the insert fail with `uniqueViolation` when
the normalized tag is already present at insert time; `insertFault`
injects any other store failure of the insert. -/
def getOrCreateHashtag (dbAtLookup dbAtInsert : List HashtagRow)
    (insertFault : Bool) (freshId : Nat) (tag : String) :
    Except SbError HashtagRow × List HashtagRow :=
  let normalizedTag := lowerString tag
  match dbAtLookup.find? (fun h => h.tag == normalizedTag) with
  | some existing => (.ok existing, dbAtInsert)
  | none =>
    if insertFault then (.error .transportError, dbAtInsert)
    else if dbAtInsert.any (fun h => h.tag == normalizedTag) then
      (.error .uniqueViolation, dbAtInsert)
    else
      let row : HashtagRow := { id := freshId, tag := normalizedTag }
      (.ok row, dbAtInsert ++ [row])

/-- Sequential linearization of `Promise.all(tags.map(getOrCreateHashtag))`
in `linkHashtags`: every call runs (each against the table state left by
the previous one); the combined promise rejects with the first error when
any call fails, and resolves with the row list otherwise. -/
def getOrCreateAll (db : List HashtagRow) (fault : String → Bool) (freshId : Nat) :
    List String → Except SbError (List HashtagRow) × List HashtagRow
  | [] => (.ok [], db)
  | t :: ts =>
    let step := getOrCreateHashtag db db (fault t) freshId t
    let rest := getOrCreateAll step.2 fault (freshId + 1) ts
    match step.1, rest.1 with
    | .ok h, .ok hs => (.ok (h :: hs), rest.2)
    | .error e, _ => (.error e, rest.2)
    | .ok _, .error e => (.error e, rest.2)

/-- Embedding of a PostgREST `upsert(rows, ignoreDuplicates: true)` against
a composite primary key on the full pair: each row already present is
skipped (`ON CONFLICT DO NOTHING`), each new row is appended. -/
def upsertIgnoreDuplicates (table : List (Nat × Nat)) (rows : List (Nat × Nat)) :
    List (Nat × Nat) :=
  rows.foldl (fun t r => if t.contains r then t else t ++ [r]) table

/-- Embedding of `linkHashtags` (`src/lib/api.ts:268`): dedup the parsed
tags, stop when none; get-or-create every tag (a failure there rejects the
whole operation before the junction write); upsert the (post, hashtag)
pairs into `post_hashtags` ignoring duplicates, logging and swallowing an
upsert error. -/
def linkHashtags (db : DB) (f : Faults) (postId : Nat) (content : String) :
    Except SbError Unit × DB :=
  let tags := jsSetDedup (parseHashtags content)
  if tags.isEmpty then (.ok (), db)
  else
    let created := getOrCreateAll db.hashtags f.hashtagInsert db.nextId tags
    let db1 := { db with hashtags := created.2, nextId := db.nextId + tags.length }
    match created.1 with
    | .error e => (.error e, db1)
    | .ok hs =>
      let rows := hs.map (fun h => (postId, h.id))
      if f.postHashtagsUpsert then (.ok (), db1)
      else (.ok (), { db1 with post_hashtags := upsertIgnoreDuplicates db1.post_hashtags rows })

/-- The batch handle lookup of `insertMentions`:
`profiles.select.in('handle', handles)` — the stored rows whose handle
column equals (case-sensitively) one of the extracted handles. -/
def resolvedProfiles (profiles : List ProfileRow) (content : String) : List ProfileRow :=
  profiles.filter (fun p => (jsSetDedup (parseMentions content)).contains p.handle)

/-- Embedding of `insertMentions` (`src/lib/api.ts:282`): dedup the parsed
handles, stop when none; batch-resolve them against `profiles` (a lookup
error is logged and swallowed); stop when none resolve; plainly insert one
(post, user) row per resolved profile (an insert error is logged and
swallowed).  The operation itself never rejects. -/
def insertMentions (db : DB) (f : Faults) (postId : Nat) (content : String) :
    Except SbError Unit × DB :=
  let handles := jsSetDedup (parseMentions content)
  if handles.isEmpty then (.ok (), db)
  else if f.profilesSelect then (.ok (), db)
  else
    let resolved := resolvedProfiles db.profiles content
    if resolved.isEmpty then (.ok (), db)
    else
      let rows := resolved.map (fun p => (postId, p.id))
      if f.mentionsInsert then (.ok (), db)
      else (.ok (), { db with mentions := db.mentions ++ rows })

/-- The per-url loop of `linkUrls`: look up an existing `link_previews` row
by exact url and reuse its id; otherwise insert a bare row, logging and
skipping the url when the insert fails. -/
def collectPreviewIds (db : DB) (f : Faults) : List String → List Nat × DB
  | [] => ([], db)
  | url :: rest =>
    match db.link_previews.find? (fun lp => lp.url == url) with
    | some existing =>
      let next := collectPreviewIds db f rest
      (existing.id :: next.1, next.2)
    | none =>
      if f.linkPreviewInsert url then collectPreviewIds db f rest
      else
        let row : LinkPreviewRow := { id := db.nextId, url := url }
        let db1 := { db with link_previews := db.link_previews ++ [row],
                             nextId := db.nextId + 1 }
        let next := collectPreviewIds db1 f rest
        (row.id :: next.1, next.2)

/-- Embedding of `linkUrls` (`src/lib/api.ts:302`): dedup the parsed urls,
stop when none; get-or-create a preview row per url; upsert the
(post, preview) pairs into `post_links` ignoring duplicates, logging and
swallowing an upsert error.  The operation itself never rejects. -/
def linkUrls (db : DB) (f : Faults) (postId : Nat) (content : String) :
    Except SbError Unit × DB :=
  let urls := jsSetDedup (parseUrls content)
  if urls.isEmpty then (.ok (), db)
  else
    let collected := collectPreviewIds db f urls
    if collected.1.isEmpty then (.ok (), collected.2)
    else
      let rows := collected.1.map (fun i => (postId, i))
      if f.postLinksUpsert then (.ok (), collected.2)
      else (.ok (),
        { collected.2 with post_links := upsertIgnoreDuplicates collected.2.post_links rows })

/-! ## Post lifecycle: createPost -/

/-- JavaScript `imageUrl || null`: an absent or empty-string image url is
stored as null. -/
def jsOrNull (imageUrl : Option String) : Option String :=
  match imageUrl with
  | some s => if s == "" then none else some s
  | none => none

/-- Embedding of `createPost` (`src/lib/api.ts:5`): insert the post row
(throwing the store error when the insert fails), then run the three
enrichment operations under `Promise.allSettled` — all three always run,
their individual outcomes are collected and discarded, and the persisted
post is returned. -/
def createPost (db : DB) (f : Faults) (now : Nat) (userId : Nat)
    (content : String) (imageUrl : Option String) : Except SbError Post × DB :=
  if f.postInsert then (.error .transportError, db)
  else
    let post : Post := { id := db.nextId, user_id := userId, content := content,
                         image_url := jsOrNull imageUrl, is_deleted := false,
                         created_at := now }
    let db1 := { db with posts := db.posts ++ [post], nextId := db.nextId + 1 }
    let db2 := (linkHashtags db1 f post.id content).2
    let db3 := (insertMentions db2 f post.id content).2
    let db4 := (linkUrls db3 f post.id content).2
    (.ok post, db4)

/-! ## Feed assembler: getHomeFeed, getUserPosts -/

/-- Descending creation-time order used by
`order('created_at', ascending: false)`. -/
def createdDesc (a b : Post) : Prop := b.created_at ≤ a.created_at

instance : DecidableRel createdDesc := fun _ _ => Nat.decLe _ _

instance : IsTotal Post createdDesc :=
  ⟨fun a b => Nat.le_total b.created_at a.created_at⟩

instance : IsTrans Post createdDesc :=
  ⟨fun _ _ _ hab hbc => Nat.le_trans hbc hab⟩

/-- Author-set computation of `getHomeFeed` (`src/lib/api.ts:48`): the ids
the viewer follows, with the viewer pushed on at the end. -/
def followingIdsOf (db : DB) (userId : Nat) : List Nat :=
  (db.follows.filter (fun fl => fl.follower_id == userId)).map FollowRow.following_id
    ++ [userId]

/-- The row set of the feed post query before ordering and paging:
`in('user_id', authorIds)` and `eq('is_deleted', false)`. -/
def feedCandidates (posts : List Post) (authorIds : List Nat) : List Post :=
  posts.filter (fun p => authorIds.contains p.user_id && p.is_deleted == false)

/-- The conditional cursor filter: `lt('created_at', cursor)` when a cursor
is supplied. -/
def applyCursor (rows : List Post) : Option Nat → List Post
  | some c => rows.filter (fun p => p.created_at < c)
  | none => rows

/-- The shared feed post query: filter by author set, soft-delete flag and
cursor, order by creation time descending, cap at `limit`. -/
def runFeedQuery (posts : List Post) (authorIds : List Nat) (cursor : Option Nat)
    (limit : Nat) : List Post :=
  (List.insertionSort createdDesc (applyCursor (feedCandidates posts authorIds) cursor)).take
    limit

/-- Embedding of `getHomeFeed` (`src/lib/api.ts:48`): author set from the
`follows` table plus the viewer, empty page when the author set is empty
(unreachable, since the viewer is always pushed), then the shared query. -/
def getHomeFeed (db : DB) (userId : Nat) (cursor : Option Nat) (limit : Nat) :
    List Post :=
  let followingIds := followingIdsOf db userId
  if followingIds.isEmpty then []
  else runFeedQuery db.posts followingIds cursor limit

/-- Embedding of `getUserPosts` (`src/lib/api.ts:82`): the shared query
with author set `{userId}` (`eq('user_id', userId)`). -/
def getUserPosts (db : DB) (userId : Nat) (cursor : Option Nat) (limit : Nat) :
    List Post :=
  runFeedQuery db.posts [userId] cursor limit

/-! ## Social graph: unfollowUser -/

/-- Embedding of `unfollowUser` (`src/lib/api.ts:149`): delete every
`follows` row matching both ids; the delete reports no error when nothing
matches. -/
def unfollowUser (db : DB) (followerId followingId : Nat) :
    Except SbError Unit × DB :=
  let remaining := db.follows.filter
    (fun fl => !(fl.follower_id == followerId && fl.following_id == followingId))
  (.ok (), { db with follows := remaining })

/-! ## Concrete fixtures for witnesses -/

/-- Example profile with an all-lowercase handle. -/
def profileAlice : ProfileRow := { id := 1, handle := "alice" }

/-- Example profile whose stored handle contains an uppercase letter. -/
def profileBobUpper : ProfileRow := { id := 2, handle := "Bob" }

/-- Example profile holding the lowercased form of the previous handle. -/
def profileBobLower : ProfileRow := { id := 3, handle := "bob" }

/-- An older post by the first profile. -/
def postOld : Post :=
  { id := 10, user_id := 1, content := "hello", image_url := none,
    is_deleted := false, created_at := 3 }

/-- A newer post by the first profile. -/
def postNew : Post :=
  { id := 11, user_id := 1, content := "newer", image_url := none,
    is_deleted := false, created_at := 7 }

/-- A soft-deleted post by the first profile. -/
def postDeleted : Post :=
  { id := 12, user_id := 1, content := "gone", image_url := none,
    is_deleted := true, created_at := 5 }

/-- A small concrete database used by the witnesses. -/
def dbW : DB :=
  { profiles := [profileAlice, profileBobUpper, profileBobLower],
    posts := [postOld, postNew, postDeleted],
    follows := [{ follower_id := 1, following_id := 3 }],
    hashtags := [], post_hashtags := [], mentions := [],
    link_previews := [], post_links := [], nextId := 100 }

/-! ## C1: getOrCreateHashtag under a lost creation race -/

/-- C1, counterexample.  The claim says a unique-text violation of the
insert is treated as "already exists" followed by a re-read returning the
existing row.  At a state where the tag is absent at lookup time but
present (id 7) at insert time, `getOrCreateHashtag` instead propagates the
unique violation and returns no row at all. -/
theorem getOrCreateHashtag_race_counterexample :
    (getOrCreateHashtag [] [{ id := 7, tag := "x" }] false 9 "x").1 ≠
      Except.ok { id := 7, tag := "x" } ∧
    (getOrCreateHashtag [] [{ id := 7, tag := "x" }] false 9 "x").1 =
      Except.error SbError.uniqueViolation := by
  constructor
  · decide
  · decide

/-- C1, amended.  For every tag whose normalized text is absent at the
initial lookup but whose insert then fails with the unique-text
(duplicate-key) violation, `getOrCreateHashtag` throws that violation to
its caller — it performs no re-read and returns no existing row (the
failure is swallowed only later, by `createPost`'s settle of the
enrichment operations). -/
theorem getOrCreateHashtag_throws_on_unique_violation
    (dbAtLookup dbAtInsert : List HashtagRow) (freshId : Nat) (tag : String)
    (hmiss : dbAtLookup.find? (fun h => h.tag == lowerString tag) = none)
    (hdup : dbAtInsert.any (fun h => h.tag == lowerString tag) = true) :
    (getOrCreateHashtag dbAtLookup dbAtInsert false freshId tag).1 =
      Except.error SbError.uniqueViolation := by
  unfold getOrCreateHashtag
  dsimp only
  rw [hmiss]
  simp [hdup]

/-- C1, witness for the amended theorem at a concrete race. -/
theorem getOrCreateHashtag_throws_witness :
    (getOrCreateHashtag [] [{ id := 7, tag := "x" }] false 9 "x").1 =
      Except.error SbError.uniqueViolation :=
  getOrCreateHashtag_throws_on_unique_violation [] [{ id := 7, tag := "x" }] 9 "x"
    (by decide) (by decide)

/-! ## C2: createPost succeeds independently of enrichment outcome -/

/-- C2.  Whenever the post insert itself succeeds, `createPost` returns
the persisted post for every fault pattern of the three enrichment
operations: all three run under `Promise.allSettled`, their outcomes are
discarded, and no enrichment error reaches the caller. -/
theorem createPost_ok_despite_enrichment_failures (db : DB) (f : Faults)
    (now userId : Nat) (content : String) (imageUrl : Option String)
    (h : f.postInsert = false) :
    (createPost db f now userId content imageUrl).1 =
      Except.ok { id := db.nextId, user_id := userId, content := content,
                  image_url := jsOrNull imageUrl, is_deleted := false,
                  created_at := now } := by
  unfold createPost
  rw [if_neg (by simp [h])]

/-- C2, witness: a concrete post whose hashtag junction write and mention
insert both fail still comes back as the created post. -/
theorem createPost_ok_witness :
    (createPost dbW
        { noFaults with postHashtagsUpsert := true, mentionsInsert := true }
        9 1 "hi #lean from @bob" none).1 =
      Except.ok { id := 100, user_id := 1, content := "hi #lean from @bob",
                  image_url := none, is_deleted := false, created_at := 9 } :=
  createPost_ok_despite_enrichment_failures dbW
    { noFaults with postHashtagsUpsert := true, mentionsInsert := true }
    9 1 "hi #lean from @bob" none rfl

/-! ## C3: purity and duplicate handling of the three extractors -/

/-- C3, counterexample.  The claim says the three extraction functions return
duplicate-free (post-normalization) results; `parseHashtags` on a text
with the same tag twice returns the duplicate pair. -/
theorem parseHashtags_duplicates_counterexample :
    parseHashtags "#a #a" = ["a", "a"] ∧ ¬ (parseHashtags "#a #a").Nodup := by
  constructor
  · decide
  · decide

/-- C3, amended.  The three extraction functions are pure and
deterministic, but their raw outputs may repeat a normalized item; the
duplicate-free lists are produced downstream by `Array.from(new Set(·))`
in the enrichment writers, which keeps first occurrences in order and
preserves membership. -/
theorem parse_results_dedup_downstream (s : String) (a : String) :
    (jsSetDedup (parseHashtags s)).Nodup ∧
    (jsSetDedup (parseMentions s)).Nodup ∧
    (jsSetDedup (parseUrls s)).Nodup ∧
    (a ∈ jsSetDedup (parseHashtags s) ↔ a ∈ parseHashtags s) ∧
    (a ∈ jsSetDedup (parseMentions s) ↔ a ∈ parseMentions s) ∧
    (a ∈ jsSetDedup (parseUrls s) ↔ a ∈ parseUrls s) :=
  ⟨nodup_jsSetDedup _, nodup_jsSetDedup _, nodup_jsSetDedup _,
    mem_jsSetDedup, mem_jsSetDedup, mem_jsSetDedup⟩

/-! ## C4 and C5: feed query helper lemmas -/

theorem mem_applyCursor_of_mem {rows : List Post} {cursor : Option Nat} {p : Post}
    (hp : p ∈ applyCursor rows cursor) : p ∈ rows := by
  cases cursor with
  | none => exact hp
  | some c => exact List.mem_of_mem_filter hp

theorem mem_feedCandidates_of_mem_runFeedQuery {posts : List Post}
    {authorIds : List Nat} {cursor : Option Nat} {limit : Nat} {p : Post}
    (hp : p ∈ runFeedQuery posts authorIds cursor limit) :
    p ∈ feedCandidates posts authorIds := by
  unfold runFeedQuery at hp
  have h1 := List.take_subset _ _ hp
  have h2 := (List.perm_insertionSort createdDesc _).subset h1
  exact mem_applyCursor_of_mem h2

theorem runFeedQuery_cursor_bound {posts : List Post} {authorIds : List Nat}
    {c limit : Nat} {p : Post}
    (hp : p ∈ runFeedQuery posts authorIds (some c) limit) : p.created_at < c := by
  unfold runFeedQuery at hp
  have h1 := List.take_subset _ _ hp
  have h2 := (List.perm_insertionSort createdDesc _).subset h1
  have h3 := (List.mem_filter.mp h2).2
  simpa using h3

theorem runFeedQuery_sorted (posts : List Post) (authorIds : List Nat)
    (cursor : Option Nat) (limit : Nat) :
    (runFeedQuery posts authorIds cursor limit).Pairwise createdDesc := by
  unfold runFeedQuery
  exact List.Pairwise.sublist (List.take_sublist _ _)
    (List.sorted_insertionSort createdDesc _)

theorem runFeedQuery_length_le (posts : List Post) (authorIds : List Nat)
    (cursor : Option Nat) (limit : Nat) :
    (runFeedQuery posts authorIds cursor limit).length ≤ limit := by
  unfold runFeedQuery
  simp

theorem followingIdsOf_isEmpty_eq_false (db : DB) (userId : Nat) :
    (followingIdsOf db userId).isEmpty = false := by
  unfold followingIdsOf
  simp

theorem getHomeFeed_eq_runFeedQuery (db : DB) (userId : Nat)
    (cursor : Option Nat) (limit : Nat) :
    getHomeFeed db userId cursor limit =
      runFeedQuery db.posts (followingIdsOf db userId) cursor limit := by
  unfold getHomeFeed
  dsimp only
  rw [followingIdsOf_isEmpty_eq_false]
  simp

/-- C4.  For every viewer or subject user, cursor timestamp `c` and limit,
`getHomeFeed` and `getUserPosts` with cursor `c` return only posts created
strictly before `c`, ordered by creation time descending, with at most
`limit` posts in the page. -/
theorem feed_pagination_cursor (db : DB) (userId c limit : Nat) :
    ((∀ p ∈ getHomeFeed db userId (some c) limit, p.created_at < c) ∧
      (getHomeFeed db userId (some c) limit).Pairwise createdDesc ∧
      (getHomeFeed db userId (some c) limit).length ≤ limit) ∧
    ((∀ p ∈ getUserPosts db userId (some c) limit, p.created_at < c) ∧
      (getUserPosts db userId (some c) limit).Pairwise createdDesc ∧
      (getUserPosts db userId (some c) limit).length ≤ limit) := by
  rw [getHomeFeed_eq_runFeedQuery]
  unfold getUserPosts
  exact ⟨⟨fun p hp => runFeedQuery_cursor_bound hp,
      runFeedQuery_sorted _ _ _ _, runFeedQuery_length_le _ _ _ _⟩,
    ⟨fun p hp => runFeedQuery_cursor_bound hp,
      runFeedQuery_sorted _ _ _ _, runFeedQuery_length_le _ _ _ _⟩⟩

/-- C4, witness: with cursor 5 the home feed of user 1 in the sample
database contains the post created at 3, and the theorem bounds its
timestamp by the cursor. -/
theorem feed_pagination_cursor_witness : postOld.created_at < 5 :=
  (feed_pagination_cursor dbW 1 5 5).1.1 postOld (by decide)

/-- C5.  A post whose `is_deleted` flag is set never appears in a page of
`getHomeFeed` or `getUserPosts`, for any viewer, cursor and limit,
regardless of author-set membership. -/
theorem feed_excludes_soft_deleted (db : DB) (userId : Nat)
    (cursor : Option Nat) (limit : Nat) (p : Post) (hdel : p.is_deleted = true) :
    p ∉ getHomeFeed db userId cursor limit ∧
      p ∉ getUserPosts db userId cursor limit := by
  have key : ∀ authorIds, p ∉ runFeedQuery db.posts authorIds cursor limit := by
    intro authorIds hp
    have hc := mem_feedCandidates_of_mem_runFeedQuery hp
    have := (List.mem_filter.mp hc).2
    simp [hdel] at this
  rw [getHomeFeed_eq_runFeedQuery]
  unfold getUserPosts
  exact ⟨key _, key _⟩

/-- C5, witness: the soft-deleted sample post is absent from its author's
own home feed even though the author is in the author set. -/
theorem feed_excludes_soft_deleted_witness :
    postDeleted ∉ getHomeFeed dbW 1 none 5 :=
  (feed_excludes_soft_deleted dbW 1 none 5 postDeleted rfl).1

/-- C6.  The author set `getHomeFeed` computes always contains the viewer
(the viewer id is pushed onto the followed ids) and is therefore never
empty, so every non-deleted post of the viewer is among the candidate rows
of the home-feed query. -/
theorem homeFeed_author_set_includes_viewer (db : DB) (userId : Nat) :
    userId ∈ followingIdsOf db userId ∧ followingIdsOf db userId ≠ [] ∧
      ∀ p ∈ db.posts, p.user_id = userId → p.is_deleted = false →
        p ∈ feedCandidates db.posts (followingIdsOf db userId) := by
  have hmem : userId ∈ followingIdsOf db userId := by
    unfold followingIdsOf
    simp
  refine ⟨hmem, List.ne_nil_of_mem hmem, ?_⟩
  intro p hp hauthor hdel
  unfold feedCandidates
  rw [List.mem_filter]
  refine ⟨hp, ?_⟩
  simp only [hauthor, hdel, Bool.and_eq_true, beq_self_eq_true, and_true]
  exact List.elem_eq_true_of_mem hmem

/-- C6, witness: the viewer's own non-deleted post is a candidate row of
the viewer's home feed in the sample database. -/
theorem homeFeed_author_set_includes_viewer_witness :
    postOld ∈ feedCandidates dbW.posts (followingIdsOf dbW 1) :=
  (homeFeed_author_set_includes_viewer dbW 1).2.2 postOld (by decide) rfl rfl

/-! ## C7: idempotent junction upsert -/

/-- C7.  Inserting the post↔hashtag junction link twice with the same
(post, hashtag) pair — via the conflict-ignoring upsert `linkHashtags`
uses against the composite primary key — leaves exactly one link row; the
second insert is a no-op, not an error. -/
theorem post_hashtags_link_idempotent (table : List (Nat × Nat)) (r : Nat × Nat)
    (h : table.count r = 0) :
    upsertIgnoreDuplicates (upsertIgnoreDuplicates table [r]) [r] =
      upsertIgnoreDuplicates table [r] ∧
    (upsertIgnoreDuplicates (upsertIgnoreDuplicates table [r]) [r]).count r = 1 := by
  have hnot : r ∉ table := List.count_eq_zero.mp h
  have hc : table.contains r = false := by
    cases hcc : table.contains r
    · rfl
    · exact absurd (List.elem_iff.mp hcc) hnot
  have hc2 : (table ++ [r]).contains r = true :=
    List.elem_eq_true_of_mem (List.mem_append_right _ (List.mem_singleton_self r))
  have h1 : upsertIgnoreDuplicates table [r] = table ++ [r] := by
    unfold upsertIgnoreDuplicates
    simp [List.foldl, hnot]
  have h2 : upsertIgnoreDuplicates (table ++ [r]) [r] = table ++ [r] := by
    unfold upsertIgnoreDuplicates
    simp [List.foldl, hc2]
  rw [h1, h2]
  refine ⟨rfl, ?_⟩
  simp [h, List.count_singleton]

/-- C7, witness at the empty junction table and the pair (1, 2). -/
theorem post_hashtags_link_idempotent_witness :
    upsertIgnoreDuplicates (upsertIgnoreDuplicates [] [(1, 2)]) [(1, 2)] =
      upsertIgnoreDuplicates [] [(1, 2)] ∧
    (upsertIgnoreDuplicates (upsertIgnoreDuplicates [] [(1, 2)]) [(1, 2)]).count (1, 2) = 1 :=
  post_hashtags_link_idempotent [] (1, 2) rfl

/-! ## C8: unfollow of a non-existent relation -/

/-- C8.  For every pair with no existing follow relation, `unfollowUser`
completes without error and leaves the database unchanged: deleting a
non-existent follow is a no-op, not an error. -/
theorem unfollow_nonexistent_noop (db : DB) (a b : Nat)
    (h : ∀ fl ∈ db.follows, ¬(fl.follower_id = a ∧ fl.following_id = b)) :
    unfollowUser db a b = (Except.ok (), db) := by
  unfold unfollowUser
  dsimp only
  have hf : db.follows.filter
      (fun fl => !(fl.follower_id == a && fl.following_id == b)) = db.follows := by
    rw [List.filter_eq_self]
    intro fl hfl
    simpa using not_and_or.mp (h fl hfl)
  rw [hf]

/-- C8, witness: user 1 follows only user 3 in the sample database, and
unfollowing the absent pair (1, 2) succeeds and changes nothing. -/
theorem unfollow_nonexistent_noop_witness :
    unfollowUser dbW 1 2 = (Except.ok (), dbW) :=
  unfollow_nonexistent_noop dbW 1 2 (by decide)

/-! ## C9 and C10: mention recording -/

theorem insertMentions_run (db : DB) (f : Faults) (postId : Nat) (content : String)
    {p : ProfileRow} (hp : p ∈ db.profiles)
    (hresolve : p.handle ∈ jsSetDedup (parseMentions content))
    (hf1 : f.profilesSelect = false) (hf2 : f.mentionsInsert = false) :
    (insertMentions db f postId content).2 =
      { db with mentions := db.mentions ++
          (resolvedProfiles db.profiles content).map (fun q => (postId, q.id)) } := by
  have hne : (jsSetDedup (parseMentions content)).isEmpty = false := by
    have hnil := List.ne_nil_of_mem hresolve
    simpa [List.isEmpty_iff] using hnil
  have hpr : p ∈ resolvedProfiles db.profiles content := by
    unfold resolvedProfiles
    rw [List.mem_filter]
    exact ⟨hp, List.elem_eq_true_of_mem hresolve⟩
  have hres : (resolvedProfiles db.profiles content).isEmpty = false := by
    have hnil := List.ne_nil_of_mem hpr
    simpa [List.isEmpty_iff] using hnil
  unfold insertMentions
  dsimp only
  rw [hne, hf1, hres, hf2]
  simp

theorem count_eq_one_of_mem_nodup {l : List Nat} {x : Nat} (hd : l.Nodup)
    (hx : x ∈ l) : l.count x = 1 := by
  induction l with
  | nil => cases hx
  | cons a l ih =>
    rw [List.count_cons]
    rcases List.mem_cons.mp hx with rfl | hx2
    · have ha : x ∉ l := (List.nodup_cons.mp hd).1
      rw [List.count_eq_zero.mpr ha]
      simp
    · have hne : a ≠ x := by
        rintro rfl
        exact (List.nodup_cons.mp hd).1 hx2
      rw [ih (List.nodup_cons.mp hd).2 hx2]
      simp [hne]

theorem count_pair_map (postId : Nat) (l : List ProfileRow) (x : Nat) :
    (l.map (fun q => (postId, q.id))).count (postId, x) =
      (l.map ProfileRow.id).count x := by
  induction l with
  | nil => rfl
  | cons q l ih =>
    simp only [List.map_cons, List.count_cons, ih]
    congr 1
    by_cases hqx : q.id = x
    · simp [hqx]
    · simp [hqx]

theorem count_resolved_rows (profiles : List ProfileRow) (content : String)
    (postId : Nat) {p : ProfileRow} (hp : p ∈ profiles)
    (hresolve : p.handle ∈ jsSetDedup (parseMentions content))
    (hids : (profiles.map ProfileRow.id).Nodup) :
    ((resolvedProfiles profiles content).map (fun q => (postId, q.id))).count
      (postId, p.id) = 1 := by
  have hpr : p ∈ resolvedProfiles profiles content := by
    unfold resolvedProfiles
    rw [List.mem_filter]
    exact ⟨hp, List.elem_eq_true_of_mem hresolve⟩
  have hsub : List.Sublist ((resolvedProfiles profiles content).map ProfileRow.id)
      (profiles.map ProfileRow.id) := by
    unfold resolvedProfiles
    exact (List.filter_sublist _).map ProfileRow.id
  have hresNodup : ((resolvedProfiles profiles content).map ProfileRow.id).Nodup :=
    hids.sublist hsub
  have hidmem : p.id ∈ (resolvedProfiles profiles content).map ProfileRow.id :=
    List.mem_map_of_mem _ hpr
  rw [count_pair_map]
  exact count_eq_one_of_mem_nodup hresNodup hidmem

/-- C9.  Mention recording is not idempotent: running `insertMentions`
twice with the same post id and text appends the resolved mention rows
twice — the mentions table has no uniqueness constraint on the
(post, user) pair and the code performs a plain insert, so the count of a
resolved profile's mention row grows by two. -/
theorem insertMentions_not_idempotent (db : DB) (f : Faults) (postId : Nat)
    (content : String) (p : ProfileRow) (hp : p ∈ db.profiles)
    (hresolve : p.handle ∈ jsSetDedup (parseMentions content))
    (hids : (db.profiles.map ProfileRow.id).Nodup)
    (hf1 : f.profilesSelect = false) (hf2 : f.mentionsInsert = false) :
    ((insertMentions (insertMentions db f postId content).2 f postId
        content).2.mentions).count (postId, p.id) =
      db.mentions.count (postId, p.id) + 2 := by
  have h1 := insertMentions_run db f postId content hp hresolve hf1 hf2
  have hprof2 : (insertMentions db f postId content).2.profiles = db.profiles := by
    rw [h1]
  have hp2 : p ∈ (insertMentions db f postId content).2.profiles := by
    rw [hprof2]; exact hp
  have h2 := insertMentions_run (insertMentions db f postId content).2 f postId
    content hp2 hresolve hf1 hf2
  rw [h2]
  dsimp only
  rw [hprof2, h1]
  dsimp only
  rw [List.append_assoc, List.count_append, List.count_append]
  rw [count_resolved_rows db.profiles content postId hp hresolve hids]

/-- C9, witness: mentioning the first profile twice in the sample database
leaves two copies of its mention row. -/
theorem insertMentions_not_idempotent_witness :
    ((insertMentions (insertMentions dbW noFaults 50 "@alice").2 noFaults 50
        "@alice").2.mentions).count (50, 1) =
      dbW.mentions.count (50, 1) + 2 :=
  insertMentions_not_idempotent dbW noFaults 50 "@alice" profileAlice
    (by decide) (by decide) (by decide) rfl rfl

/-- C10.  A profile whose stored handle contains an uppercase letter is
never recorded as mentioned: `parseMentions` lowercases every extracted
handle, the batch lookup matches the stored handle by exact equality, so
such handles never resolve — every mention row after `insertMentions` is
either pre-existing or names a different profile id. -/
theorem uppercase_handle_never_mentioned (db : DB) (f : Faults) (postId : Nat)
    (content : String) (p : ProfileRow) (hp : p ∈ db.profiles)
    (hupper : p.handle.data.any isUpperAscii = true)
    (hids : (db.profiles.map ProfileRow.id).Nodup) :
    ∀ r ∈ (insertMentions db f postId content).2.mentions,
      r ∈ db.mentions ∨ r.2 ≠ p.id := by
  intro r hr
  unfold insertMentions at hr
  dsimp only at hr
  split at hr
  · exact Or.inl hr
  · split at hr
    · exact Or.inl hr
    · split at hr
      · exact Or.inl hr
      · split at hr
        · exact Or.inl hr
        · dsimp only at hr
          rcases List.mem_append.mp hr with hmem | hmem
          · exact Or.inl hmem
          · right
            rcases List.mem_map.mp hmem with ⟨q, hq, rfl⟩
            intro hqp
            dsimp only at hqp
            unfold resolvedProfiles at hq
            have hql : q ∈ db.profiles := List.mem_of_mem_filter hq
            have hhandle := (List.mem_filter.mp hq).2
            have hqmem : q.handle ∈ jsSetDedup (parseMentions content) :=
              List.elem_iff.mp hhandle
            have hq_noupper : q.handle.data.any isUpperAscii = false :=
              no_upper_of_mem_parseMentions (mem_jsSetDedup.mp hqmem)
            have hqeq : q = p := List.inj_on_of_nodup_map hids hql hp hqp
            rw [hqeq, hupper] at hq_noupper
            exact Bool.noConfusion hq_noupper

/-- C10, witness: the sample database holds both the uppercase handle
(id 2) and its lowercased twin (id 3); mentioning the uppercase spelling
records a row only for the lowercase profile. -/
theorem uppercase_handle_never_mentioned_witness :
    (50, 3) ∈ (insertMentions dbW noFaults 50 "@Bob").2.mentions ∧
      ((50, 3) ∈ dbW.mentions ∨ ((50, 3) : Nat × Nat).2 ≠ profileBobUpper.id) :=
  ⟨by decide,
    uppercase_handle_never_mentioned dbW noFaults 50 "@Bob" profileBobUpper
      (by decide) (by decide) (by decide) (50, 3) (by decide)⟩
